import Mathlib

/-!
# Verification of the multi-peer client synchronization protocol

Shallow embedding of `src/packages/sdk/src/adapters/multipeer/protocols/clientSync.ts`
(class `ClientSync`), the per-client synchronization state machine of the
mixed-reality-extension SDK, together with the pieces of its environment the
claims need (`SyncActor` from the multipeer type declarations, the JS promise
semantics relevant to the stage drivers).

Conventions of the embedding:
* TypeScript string-union `SynchronizationStage` becomes an inductive `Stage`.
* Arrays become `List`; the spread-append `[...xs, x]` becomes `xs ++ [x]`;
  `xs.filter(p)` becomes `List.filter`.
* JS numbers used for animation clocks and latencies become `ℚ` (the
  arithmetic performed by the reconciler is exact on the values the spec
  discusses).
* Asynchronous structure (promises, `await`, `Promise.all`) is embedded
  explicitly where a claim depends on it: the create-actors stage gets a
  small-step scheduler over the actor tree, and `Promise.all`'s treatment of
  non-thenable elements is modelled by `JsVal`.
-/

namespace ClientSync

/-- The `SynchronizationStage` string union (clientSync.ts lines 18-25). -/
inductive Stage where
  | always
  | loadAssets
  | createActors
  | createAnimations
  | syncAnimations
  | setBehaviors
  | never
  deriving DecidableEq, Repr, Fintype

/-- The four message handlings of the routing rule table. -/
inductive Handling where
  | allow
  | queue
  | ignore
  | error
  deriving DecidableEq, Repr

/-- The `synchronization` record of a routing rule: the stage governing the
message type and the handling before / during / after that stage. -/
structure SyncRule where
  stage : Stage
  before : Handling
  during : Handling
  after : Handling
  deriving DecidableEq, Repr

/-- Modelled from the spec: the `MissingRule` default used when the `Rules`
table (declared in the multipeer package index, not part of the sources here)
has no entry for a payload type. Spec 3: "A missing rule defaults to stage
`never`, `before=queue`, `during=queue`, `after=allow`". -/
def MissingRule : SyncRule :=
  { stage := .never, before := .queue, during := .queue, after := .allow }

/-- The mutable stage bookkeeping of one `ClientSync` instance:
`inProgressStages` and `completedStages` (clientSync.ts lines 32-33). -/
structure StageState where
  inProgressStages : List Stage
  completedStages : List Stage
  deriving DecidableEq, Repr

/-- The initial stage state: both arrays empty. -/
def StageState.init : StageState := ⟨[], []⟩

/-- `isStageComplete` (clientSync.ts lines 90-92). -/
def isStageComplete (st : StageState) (s : Stage) : Bool :=
  st.completedStages.contains s

/-- `isStageInProgress` (clientSync.ts lines 94-96). -/
def isStageInProgress (st : StageState) (s : Stage) : Bool :=
  st.inProgressStages.contains s

/-- `beginStage` (clientSync.ts lines 98-101):
`this.inProgressStages = [...this.inProgressStages, stage]`. -/
def beginStage (s : Stage) (st : StageState) : StageState :=
  { st with inProgressStages := st.inProgressStages ++ [s] }

/-- `completeStage` (clientSync.ts lines 103-107): filter the stage out of
`inProgressStages` and append it to `completedStages`. -/
def completeStage (s : Stage) (st : StageState) : StageState :=
  { inProgressStages := st.inProgressStages.filter (fun item => item ≠ s),
    completedStages := st.completedStages ++ [s] }

/-- A routing-rule table: payload type (a string discriminant) to optional
rule. The concrete `Rules` map lives outside these sources, so the router is
verified for every table. -/
def RuleTable : Type := String → Option SyncRule

/-- `handlingForMessage` (clientSync.ts lines 79-88):
`Rules[message.payload.type] || MissingRule`, then `after` if the rule's stage
is complete, else `during` if it is in progress, else `before`. -/
def handlingForMessage (rules : RuleTable) (st : StageState) (payloadType : String) : Handling :=
  let rule := (rules payloadType).getD MissingRule
  if isStageComplete st rule.stage then rule.after
  else if isStageInProgress st rule.stage then rule.during
  else rule.before

end ClientSync

namespace ClientSync

/-! ## The sync driver (`run`, clientSync.ts lines 121-143)

`run` is embedded as the sequence of observable actions it performs: the side
effects (`startListening`, `sendPayload` of sync-complete, the queue drains,
`resolve`) and the stage-machine operations, in program order. A stage's
`executeStage` call is one event; the stage drivers themselves are embedded
separately for the claims that concern them. -/

/-- One observable action of `run`. -/
inductive RunEvent where
  | startListening
  | stageBegin (s : Stage)
  | execute (s : Stage)
  | stageComplete (s : Stage)
  | drain
  | sendSyncComplete
  | resolve
  deriving DecidableEq, Repr

/-- The `sequence` field (clientSync.ts lines 36-42): the order of
synchronization stages. -/
def sequence : List Stage :=
  [.loadAssets, .createActors, .setBehaviors, .createAnimations, .syncAnimations]

/-- `run` (clientSync.ts lines 121-143) as its ordered list of observable
actions: `startListening`; begin `always`; when the session is
peer-authoritative, for each stage of `sequence` begin it, execute it,
complete it and drain the queue; complete `always`; send the sync-complete
payload; drain the queue; resolve. -/
def runEvents (peerAuthoritative : Bool) : List RunEvent :=
  [.startListening, .stageBegin .always] ++
  (if peerAuthoritative then
    sequence.flatMap (fun s => [.stageBegin s, .execute s, .stageComplete s, .drain])
   else []) ++
  [.stageComplete .always, .sendSyncComplete, .drain, .resolve]

/-- The effect of a `run` action on the stage bookkeeping: `stageBegin` and
`stageComplete` call `beginStage` / `completeStage`; the other actions do not
touch the stage arrays. -/
def applyRunEvent (e : RunEvent) (st : StageState) : StageState :=
  match e with
  | .stageBegin s => beginStage s st
  | .stageComplete s => completeStage s st
  | _ => st

/-- All intermediate stage states reached while executing a list of `run`
actions from a given state (the state before each action, plus the final
state). -/
def statesAlong (es : List RunEvent) (st : StageState) : List StageState :=
  match es with
  | [] => [st]
  | e :: rest => st :: statesAlong rest (applyRunEvent e st)

/-- The begin/complete events of `run` that touch a given stage, in order:
`true` for begin, `false` for complete. -/
def stageTransitions (s : Stage) (es : List RunEvent) : List Bool :=
  es.filterMap (fun e =>
    match e with
    | .stageBegin t => if t = s then some true else none
    | .stageComplete t => if t = s then some false else none
    | _ => none)

/-! ## The animation reconciler (`stage:sync-animations`, clientSync.ts lines 195-221)

On the authoritative client's reply the handler mutates each animation state's
`time` in place, adding half the authoritative connection's latency (in
seconds) and half the joining connection's latency, then forwards the payload
with the parent class's raw send. JS number arithmetic is embedded over `ℚ`. -/

/-- One animation state sample carried by a sync-animations payload: the
animation id and its playback clock in seconds. -/
structure AnimationState where
  animationId : String
  time : ℚ
  deriving DecidableEq, Repr

/-- The per-entry mutation of the sync-animations reply handler
(clientSync.ts lines 210-215):
`state.time += authoritativeClient.conn.quality.latencyMs.value / 2000` then
`state.time += this.conn.quality.latencyMs.value / 2000`. -/
def reconcileAnimationState (authLatencyMs joinLatencyMs : ℚ)
    (a : AnimationState) : AnimationState :=
  let a1 := { a with time := a.time + authLatencyMs / 2000 }
  { a1 with time := a1.time + joinLatencyMs / 2000 }

/-- The payload forwarded to the joining client by `stage:sync-animations`:
every entry of `animationStates` reconciled in order. -/
def forwardedAnimationStates (authLatencyMs joinLatencyMs : ℚ)
    (states : List AnimationState) : List AnimationState :=
  states.map (reconcileAnimationState authLatencyMs joinLatencyMs)

/-! ## `sendAndExpectResponse` (clientSync.ts lines 273-286)

The message is sent through the parent class's `sendMessage` with a reply
continuation; when the reply arrives, the handler echoes the reply message on
the session's application-facing connection when `client.authoritative` is
set, and resolves the awaiting continuation with the reply payload. -/

/-- What the reply continuation installed by `sendAndExpectResponse` does with
an arriving reply: the optional echo of the reply message on `session.conn`,
and the value the awaiting continuation is resolved with. -/
structure ReplyOutcome (Payload Msg : Type) where
  echoedOnSessionConn : Option Msg
  resolvedWith : Payload
  deriving DecidableEq, Repr

/-- The reply handler of `sendAndExpectResponse` (clientSync.ts lines
276-283): if the client is authoritative, send the reply message back on
`this.client.session.conn`; in every case resolve with the reply payload. -/
def sendAndExpectResponseOnReply {Payload Msg : Type}
    (clientAuthoritative : Bool) (replyPayload : Payload) (replyMessage : Msg) :
    ReplyOutcome Payload Msg :=
  { echoedOnSessionConn := if clientAuthoritative then some replyMessage else none,
    resolvedWith := replyPayload }

/-! ## `createActorInterpolations` (clientSync.ts lines 262-271)

For each entry of `actor.activeInterpolations` the loop rebinds its loop
variable to the object-spread copy `{...activeInterpolation, enabled: false}`
and sends the copy with the parent class's raw send. The spread builds a
fresh object, so the array element (the session cache's entry) still
references the original, unmutated object. -/

/-- An `InterpolateActor` payload: its `enabled` flag, with the payload's
remaining fields kept abstract. -/
structure InterpolateActor (α : Type) where
  enabled : Bool
  rest : α
  deriving DecidableEq, Repr

/-- One iteration of the loop in `createActorInterpolations`: the payload
sent (the spread copy with `enabled` forced to `false`) and the cache entry
as it stands after the iteration (the original object, untouched by the
rebinding of the loop variable). -/
def interpolationStep {α : Type} (orig : InterpolateActor α) :
    InterpolateActor α × InterpolateActor α :=
  let copy := { orig with enabled := false }
  (copy, orig)

/-- `createActorInterpolations` over a cached actor's `activeInterpolations`
array: the list of payloads sent, in order, and the array as the loop leaves
it. -/
def createActorInterpolations {α : Type} (cache : List (InterpolateActor α)) :
    List (InterpolateActor α) × List (InterpolateActor α) :=
  (cache.map (fun ip => (interpolationStep ip).1),
   cache.map (fun ip => (interpolationStep ip).2))

/-! ## `sendMessage` (clientSync.ts lines 57-77)

The outbound hook computes the handling for the message and switches on it:
`allow` forwards through the parent class (keeping the reply continuation),
`queue` appends message and continuation to the client's queue, `ignore` is
an empty case block, `error` logs. No branch resolves or rejects the reply
continuation. -/

/-- What becomes of an outbound message in `sendMessage`. -/
inductive SendEffect where
  | forwarded
  | queued
  | dropped
  | errorLogged
  deriving DecidableEq, Repr

/-- The outcome of one `sendMessage` call: where the message went and whether
the call resolved the reply continuation (with no value) itself. -/
structure SendResult where
  effect : SendEffect
  promiseResolvedEmpty : Bool
  deriving DecidableEq, Repr

/-- `sendMessage` (clientSync.ts lines 57-77). The `ignore` arm is
`case 'ignore': { break; }`: the message is dropped and the promise argument
is not touched. -/
def sendMessage (rules : RuleTable) (st : StageState) (payloadType : String) : SendResult :=
  match handlingForMessage rules st payloadType with
  | .allow => ⟨.forwarded, false⟩
  | .queue => ⟨.queued, false⟩
  | .ignore => ⟨.dropped, false⟩
  | .error => ⟨.errorLogged, false⟩

/-- Modelled from the spec: a representative rule row of the `Rules` table
(declared outside these sources), spec 4.1: the sync-animations reply has
stage `sync-animations` with `before = ignore`, `during = allow`,
`after = allow`. -/
def syncAnimationsRuleTable : RuleTable := fun t =>
  if t = "sync-animations" then some ⟨.syncAnimations, .ignore, .allow, .allow⟩ else none

/-! ## `sendQueuedMessages` (clientSync.ts lines 288-306)

The drain loop repeatedly removes from the client's queue the messages whose
current handling is `allow`, re-sends them through `sendMessage`, and stops
once the filter removes nothing. `Client.filterQueuedMessages` itself is
declared outside these sources. -/

/-- A queued outbound message: its payload type and whether a reply
continuation is attached. -/
structure QueuedMessage where
  payloadType : String
  hasPromise : Bool
  deriving DecidableEq, Repr

/-- Modelled from the spec: `Client.filterQueuedMessages` (the client class
is not among these sources), spec 4.4: `filter(predicate)` removes matching
entries in order, returning them to the caller. Result: (removed entries,
queue afterwards). -/
def filterQueuedMessages (p : QueuedMessage → Bool) (q : List QueuedMessage) :
    List QueuedMessage × List QueuedMessage :=
  (q.filter p, q.filter (fun m => !(p m)))

/-- The predicate of the drain loop (clientSync.ts lines 293-297): the
message's current handling is `allow`. -/
def allowNow (rules : RuleTable) (st : StageState) (m : QueuedMessage) : Bool :=
  handlingForMessage rules st m.payloadType == .allow

/-- The queue after re-sending a batch of drained messages through
`this.sendMessage` in order (clientSync.ts lines 301-303): a message whose
handling is `queue` re-enters the queue; `allow`, `ignore` and `error` leave
the queue untouched. -/
def resendEffect (rules : RuleTable) (st : StageState)
    (taken : List QueuedMessage) (q : List QueuedMessage) : List QueuedMessage :=
  taken.foldl (fun acc m =>
    match handlingForMessage rules st m.payloadType with
    | .queue => acc ++ [m]
    | _ => acc) q

/-- The drain loop of `sendQueuedMessages` with an explicit iteration budget:
filter the sendable messages out of the queue; if none, stop; otherwise
re-send them and repeat on the queue they leave behind. Returns the drained
messages in send order and the final queue, or `none` if the budget runs out
before the loop's exit. -/
def sendQueuedMessagesLoop (rules : RuleTable) (st : StageState) :
    Nat → List QueuedMessage → Option (List QueuedMessage × List QueuedMessage)
  | 0, _ => none
  | fuel + 1, q =>
    let taken := (filterQueuedMessages (allowNow rules st) q).1
    let rest := (filterQueuedMessages (allowNow rules st) q).2
    if taken.isEmpty then some ([], q)
    else
      match sendQueuedMessagesLoop rules st fuel (resendEffect rules st taken rest) with
      | none => none
      | some (sent, final) => some (taken ++ sent, final)

/-! ## `stage:create-animations` and JS `Promise.all` (clientSync.ts lines 184-189, 255-260)

`sendAndExpectResponse` sends its message immediately and returns a promise
pending on the message's reply. `Promise.all(iterable)` awaits exactly the
promise elements of its argument; a non-thenable element — in particular a JS
`Array` — is treated as already resolved, and the promises *inside* such an
array are not awaited. Both `stage:create-animations`
(`Promise.all([ actors.map(...) ])`) and `createActorAnimations`
(`Promise.all([ (createdAnimations || []).map(...) ])`) pass a one-element
array whose single element is itself the array of reply promises. -/

/-- A JS value as `Promise.all` sees it: a promise pending on the listed
reply message ids, or a non-thenable value (for example an `Array`), which
`Promise.all` treats as already resolved. -/
inductive JsVal where
  | promise (pending : List Nat)
  | plain
  deriving DecidableEq, Repr

/-- The reply ids a value makes `Promise.all` wait for: those of a promise;
none for a non-thenable. -/
def JsVal.awaited : JsVal → List Nat
  | .promise l => l
  | .plain => []

/-- `Promise.all(l)`: a promise pending on everything the promise elements of
`l` are pending on. -/
def promiseAll (l : List JsVal) : JsVal :=
  .promise (l.flatMap JsVal.awaited)

/-- A JS `Array` used as an element of `Promise.all`'s argument: an `Array`
is not a thenable, so it is a plain value regardless of what it contains. -/
def arrayAsJsVal (_elems : List JsVal) : JsVal := .plain

/-- The promise returned by `sendAndExpectResponse` (clientSync.ts lines
273-286): the message goes out at once; the promise is pending on the
message's reply. -/
def sendAndExpectResponsePromise (messageId : Nat) : JsVal :=
  .promise [messageId]

/-- A cached `createdAnimations` entry (`CreateAnimation` in the multipeer
type declarations): its create-animation message, identified here by id. -/
structure CreateAnimation where
  messageId : Nat
  deriving DecidableEq, Repr

/-- The slice of a cached `SyncActor` the create-animations stage reads: its
`createdAnimations` and `activeInterpolations` arrays. -/
structure SyncActor where
  actorId : String
  createdAnimations : List CreateAnimation
  activeInterpolations : List (InterpolateActor Nat)
  deriving DecidableEq, Repr

/-- `createActorAnimations` (clientSync.ts lines 255-260):
`Promise.all([ (actor.createdAnimations || []).map(ca => this.sendAndExpectResponse(ca.message)) ])`.
The argument is a one-element array; its single element is the array of
reply promises. -/
def createActorAnimations (a : SyncActor) : JsVal :=
  promiseAll [arrayAsJsVal
    (a.createdAnimations.map (fun ca => sendAndExpectResponsePromise ca.messageId))]

/-- The promise awaited by `stage:create-animations` (clientSync.ts lines
187-188): `Promise.all([ this.client.session.actors.map(syncActor => this.createActorAnimations(syncActor)) ])`
- again a one-element array whose element is the array of per-actor
promises. -/
def stageCreateAnimationsPromise (actors : List SyncActor) : JsVal :=
  promiseAll [arrayAsJsVal (actors.map createActorAnimations)]

/-- The message ids that `stage:create-animations` sends with a reply
expected: every cached actor's every `createdAnimation.message`, dispatched
by `sendAndExpectResponse` when the promise is built. -/
def createAnimationsSentWithReply (actors : List SyncActor) : List Nat :=
  actors.flatMap (fun a => a.createdAnimations.map (fun ca => ca.messageId))

/-- The interpolation payloads forwarded by `stage:create-animations`
(clientSync.ts line 186) before the animation messages: each actor's
`createActorInterpolations` sends. -/
def createAnimationsInterpolationsSent (actors : List SyncActor) :
    List (InterpolateActor Nat) :=
  actors.flatMap (fun a => (createActorInterpolations a.activeInterpolations).1)

/-! ## `stage:create-actors` (clientSync.ts lines 163-168, 223-253)

`stage:create-actors` spawns `createActorRecursive` for every cached
top-level actor in parallel. Each task sends its actor's create message
through `sendAndExpectResponse` and suspends on `await this.createActor(actor)`
until the reply is observed; only then does it spawn its children's tasks (in
parallel among themselves). The asynchronous structure is embedded as a
small-step scheduler over the actor hierarchy: a step either dispatches the
create message of an actor whose task has been unblocked, or delivers the
reply to an outstanding create message; any interleaving is allowed. -/

/-- The cached actor hierarchy as the session exposes it to the stage:
`session.rootActors` and `session.childrenOf` (keyed here by actor id). -/
structure ActorCache where
  rootActors : List Nat
  childrenOf : Nat → List Nat

/-- Transport events of the create-actors stage: a create message going out,
or its reply being observed. -/
inductive CreateEvent where
  | send (actorId : Nat)
  | reply (actorId : Nat)
  deriving DecidableEq, Repr

/-- The progress of one actor's `createActorRecursive` task: not yet sent its
create message, sent and awaiting the reply, or past the `await` (reply
observed). -/
inductive TaskStatus where
  | idle
  | sent
  | done
  deriving DecidableEq, Repr

/-- A scheduler state of the create-actors stage: each actor's task progress
and the transport trace so far. -/
structure CreateState where
  status : Nat → TaskStatus
  trace : List CreateEvent

/-- The stage's starting state: no task has sent anything. -/
def CreateState.init : CreateState := ⟨fun _ => .idle, []⟩

/-- An actor's create message may be dispatched: its task has been spawned,
which happens for top-level actors when the stage starts (clientSync.ts lines
165-167) and for any other actor once its parent's task has passed the
`await this.createActor(actor)` (lines 226-233), i.e. once the parent's
reply has been observed. -/
def canSend (cache : ActorCache) (s : CreateState) (a : Nat) : Prop :=
  a ∈ cache.rootActors ∨ ∃ p, s.status p = .done ∧ a ∈ cache.childrenOf p

/-- One scheduler step: an unblocked task sends its create message, or the
reply to an outstanding create message arrives. -/
inductive CreateStep (cache : ActorCache) : CreateState → CreateState → Prop where
  | send (a : Nat) (s : CreateState) (hc : canSend cache s a) (hi : s.status a = .idle) :
      CreateStep cache s ⟨Function.update s.status a .sent, s.trace ++ [.send a]⟩
  | reply (a : Nat) (s : CreateState) (hs : s.status a = .sent) :
      CreateStep cache s ⟨Function.update s.status a .done, s.trace ++ [.reply a]⟩

/-- States the create-actors stage can reach from its start, under any
interleaving. -/
def CreateReachable (cache : ActorCache) (s : CreateState) : Prop :=
  Relation.ReflTransGen (CreateStep cache) CreateState.init s

/-- `e1` occurs strictly before `e2` in the trace `l`. -/
def eventBefore (l : List CreateEvent) (e1 e2 : CreateEvent) : Prop :=
  ∃ i j : Nat, i < j ∧ l[i]? = some e1 ∧ l[j]? = some e2

/-- A concrete hierarchy with one top-level actor (id 1) and two children
(ids 2 and 3), used to exhibit sibling parallelism. -/
def siblingCache : ActorCache :=
  ⟨[1], fun n => if n = 1 then [2, 3] else []⟩

/-- The invariant of the create-actors scheduler: task progress mirrors the
trace (an idle task has emitted nothing, a sent task has an outstanding
create message whose reply is still missing, a done task has seen its reply),
and the create message of an actor that is not top-level goes out only after
its unique parent's reply. -/
def CreateInv (cache : ActorCache) (s : CreateState) : Prop :=
  (∀ x, s.status x = .idle →
    CreateEvent.send x ∉ s.trace ∧ CreateEvent.reply x ∉ s.trace) ∧
  (∀ x, s.status x = .sent →
    CreateEvent.send x ∈ s.trace ∧ CreateEvent.reply x ∉ s.trace) ∧
  (∀ x, s.status x = .done → CreateEvent.reply x ∈ s.trace) ∧
  (∀ c p, c ∉ cache.rootActors → (∀ q, c ∈ cache.childrenOf q → q = p) →
    CreateEvent.send c ∈ s.trace →
    eventBefore s.trace (.reply p) (.send c))

/-- Scheduler state of `siblingCache` after actor 1's create message has been
sent. -/
def sibState1 : CreateState :=
  ⟨Function.update CreateState.init.status 1 .sent, [.send 1]⟩

/-- Scheduler state of `siblingCache` after the reply to actor 1's create
message is observed. -/
def sibState2 : CreateState :=
  ⟨Function.update sibState1.status 1 .done, [.send 1, .reply 1]⟩

/-- Scheduler state of `siblingCache` after child 2's create message has been
sent. -/
def sibState3 : CreateState :=
  ⟨Function.update sibState2.status 2 .sent, [.send 1, .reply 1, .send 2]⟩

/-- Scheduler state of `siblingCache` after child 3's create message has also
been sent - both siblings in flight at once, neither reply observed. -/
def sibState4 : CreateState :=
  ⟨Function.update sibState3.status 3 .sent, [.send 1, .reply 1, .send 2, .send 3]⟩

/-- Re-sending messages whose handling is `allow` leaves the queue as it was:
none of them re-enters. -/
theorem resendEffect_of_allow (rules : RuleTable) (st : StageState) :
    ∀ (taken q : List QueuedMessage),
      (∀ m ∈ taken, allowNow rules st m = true) → resendEffect rules st taken q = q := by
  intro taken
  induction taken with
  | nil => intro q _; rfl
  | cons m rest ih =>
    intro q h
    have hm : allowNow rules st m = true := h m (by simp)
    have hm' : handlingForMessage rules st m.payloadType = .allow := by
      simpa [allowNow] using hm
    show resendEffect rules st (m :: rest) q = q
    simp only [resendEffect, List.foldl_cons, hm']
    exact ih q (fun x hx => h x (by simp [hx]))

/-- When the filter removes nothing, the drain loop exits at once, leaving
the queue as it found it. -/
theorem sendQueuedMessagesLoop_exit (rules : RuleTable) (st : StageState)
    (fuel : Nat) (q : List QueuedMessage)
    (h : q.filter (allowNow rules st) = []) :
    sendQueuedMessagesLoop rules st (fuel + 1) q = some ([], q) := by
  simp [sendQueuedMessagesLoop, filterQueuedMessages, h]

/-- With any budget of at least two iterations, the drain loop finishes: the
first iteration removes and sends every `allow`-classified message, the
second removes nothing and exits. -/
theorem sendQueuedMessagesLoop_run (rules : RuleTable) (st : StageState)
    (fuel : Nat) (q : List QueuedMessage) :
    sendQueuedMessagesLoop rules st (fuel + 2) q =
      some (q.filter (allowNow rules st),
            q.filter (fun m => !(allowNow rules st m))) := by
  by_cases h : q.filter (allowNow rules st) = []
  · have hkeep : q.filter (fun m => !(allowNow rules st m)) = q := by
      rw [List.filter_eq_self]
      intro m hm
      have := List.filter_eq_nil_iff.mp h m hm
      simp [this]
    rw [show fuel + 2 = (fuel + 1) + 1 from rfl,
      sendQueuedMessagesLoop_exit rules st (fuel + 1) q h, h, hkeep]
  · have hresend : resendEffect rules st (q.filter (allowNow rules st))
        (q.filter (fun m => !(allowNow rules st m)))
        = q.filter (fun m => !(allowNow rules st m)) :=
      resendEffect_of_allow rules st _ _ (fun m hm => (List.mem_filter.mp hm).2)
    have hrest_nil : (q.filter (fun m => !(allowNow rules st m))).filter
        (allowNow rules st) = [] := by
      rw [List.filter_eq_nil_iff]
      intro m hm
      have := (List.mem_filter.mp hm).2
      simp at this
      simp [this]
    have hrec := sendQueuedMessagesLoop_exit rules st fuel
      (q.filter (fun m => !(allowNow rules st m))) hrest_nil
    show sendQueuedMessagesLoop rules st (fuel + 1 + 1) q = _
    rw [sendQueuedMessagesLoop]
    simp only [filterQueuedMessages]
    rw [if_neg (by simpa using h), hresend, hrec]
    simp

/-- Occurring before is stable under extending the trace. -/
theorem eventBefore_append (l l' : List CreateEvent) (e1 e2 : CreateEvent)
    (h : eventBefore l e1 e2) : eventBefore (l ++ l') e1 e2 := by
  obtain ⟨i, j, hij, h1, h2⟩ := h
  have hi : i < l.length := by
    have := List.getElem?_eq_some.mp h1
    exact this.1
  have hj : j < l.length := by
    have := List.getElem?_eq_some.mp h2
    exact this.1
  refine ⟨i, j, hij, ?_, ?_⟩
  · rw [List.getElem?_append, if_pos hi]
    exact h1
  · rw [List.getElem?_append, if_pos hj]
    exact h2

/-- The invariant holds at the stage's starting state. -/
theorem createInv_init (cache : ActorCache) : CreateInv cache CreateState.init := by
  refine ⟨?_, ?_, ?_, ?_⟩
  · intro x _
    simp [CreateState.init]
  · intro x hx
    simp [CreateState.init] at hx
  · intro x hx
    simp [CreateState.init] at hx
  · intro c p _ _ hmem
    simp [CreateState.init] at hmem

/-- The invariant is preserved when an unblocked task sends its create
message. -/
theorem createInv_send (cache : ActorCache) (b : CreateState) (a : Nat)
    (hc : canSend cache b a) (hi : b.status a = .idle) (hb : CreateInv cache b) :
    CreateInv cache ⟨Function.update b.status a .sent, b.trace ++ [.send a]⟩ := by
  obtain ⟨ih1, ih2, ih3, ih4⟩ := hb
  refine ⟨?_, ?_, ?_, ?_⟩
  · intro x hx
    dsimp only at hx ⊢
    by_cases hxa : x = a
    · subst hxa
      rw [Function.update_same] at hx
      exact absurd hx (by simp)
    · rw [Function.update_noteq hxa] at hx
      have h' := ih1 x hx
      simp [List.mem_append, hxa, h'.1, h'.2]
  · intro x hx
    dsimp only at hx ⊢
    by_cases hxa : x = a
    · subst hxa
      have h' := ih1 x hi
      simp [List.mem_append, h'.2]
    · rw [Function.update_noteq hxa] at hx
      have h' := ih2 x hx
      simp [List.mem_append, h'.1, h'.2, hxa]
  · intro x hx
    dsimp only at hx ⊢
    by_cases hxa : x = a
    · subst hxa
      rw [Function.update_same] at hx
      exact absurd hx (by simp)
    · rw [Function.update_noteq hxa] at hx
      exact List.mem_append.mpr (Or.inl (ih3 x hx))
  · intro c p hroot huniq hmem
    dsimp only at hmem ⊢
    rcases List.mem_append.mp hmem with h | h
    · exact eventBefore_append _ _ _ _ (ih4 c p hroot huniq h)
    · have hca : c = a := by simpa using h
      subst hca
      rcases hc with hr | ⟨q, hqdone, hqchild⟩
      · exact absurd hr hroot
      · have hqp : q = p := huniq q hqchild
        have hpdone : b.status p = .done := hqp ▸ hqdone
        have hreply : CreateEvent.reply p ∈ b.trace := ih3 p hpdone
        obtain ⟨i, hi'⟩ := List.mem_iff_getElem?.mp hreply
        have hilt : i < b.trace.length := (List.getElem?_eq_some.mp hi').1
        refine ⟨i, b.trace.length, hilt, ?_, ?_⟩
        · rw [List.getElem?_append, if_pos hilt]
          exact hi'
        · rw [List.getElem?_append]
          simp

/-- The invariant is preserved when the reply to an outstanding create
message arrives. -/
theorem createInv_reply (cache : ActorCache) (b : CreateState) (a : Nat)
    (hstat : b.status a = .sent) (hb : CreateInv cache b) :
    CreateInv cache ⟨Function.update b.status a .done, b.trace ++ [.reply a]⟩ := by
  obtain ⟨ih1, ih2, ih3, ih4⟩ := hb
  refine ⟨?_, ?_, ?_, ?_⟩
  · intro x hx
    dsimp only at hx ⊢
    by_cases hxa : x = a
    · subst hxa
      rw [Function.update_same] at hx
      exact absurd hx (by simp)
    · rw [Function.update_noteq hxa] at hx
      have h' := ih1 x hx
      simp [List.mem_append, hxa, h'.1, h'.2]
  · intro x hx
    dsimp only at hx ⊢
    by_cases hxa : x = a
    · subst hxa
      rw [Function.update_same] at hx
      exact absurd hx (by simp)
    · rw [Function.update_noteq hxa] at hx
      have h' := ih2 x hx
      simp [List.mem_append, h'.1, h'.2, hxa]
  · intro x hx
    dsimp only at hx ⊢
    by_cases hxa : x = a
    · subst hxa
      simp [List.mem_append]
    · rw [Function.update_noteq hxa] at hx
      exact List.mem_append.mpr (Or.inl (ih3 x hx))
  · intro c p hroot huniq hmem
    dsimp only at hmem ⊢
    have h : CreateEvent.send c ∈ b.trace := by
      rcases List.mem_append.mp hmem with h | h
      · exact h
      · exact absurd h (by simp)
    exact eventBefore_append _ _ _ _ (ih4 c p hroot huniq h)

/-- The invariant holds at every reachable state of the create-actors
stage. -/
theorem createReachable_invariant (cache : ActorCache) (s : CreateState)
    (hs : CreateReachable cache s) : CreateInv cache s := by
  have hs' : Relation.ReflTransGen (CreateStep cache) CreateState.init s := hs
  clear hs
  induction hs' with
  | refl => exact createInv_init cache
  | tail hab hbc ih =>
    cases hbc with
    | send a s hc hi => exact createInv_send cache _ a hc hi ih
    | reply a s hstat => exact createInv_reply cache _ a hstat ih

/-- The schedule dispatching actor 1, observing its reply, then dispatching
child 2 is a run the stage can take. -/
theorem sibState3_reachable : CreateReachable siblingCache sibState3 :=
  Relation.ReflTransGen.tail
    (Relation.ReflTransGen.tail
      (Relation.ReflTransGen.tail Relation.ReflTransGen.refl
        (CreateStep.send 1 CreateState.init (Or.inl (by decide)) rfl))
      (CreateStep.reply 1 sibState1 rfl))
    (CreateStep.send 2 sibState2 (Or.inr ⟨1, rfl, by decide⟩) rfl)

/-- One more step: child 3 dispatched while child 2's reply is still
outstanding. -/
theorem sibState4_reachable : CreateReachable siblingCache sibState4 :=
  Relation.ReflTransGen.tail sibState3_reachable
    (CreateStep.send 3 sibState3 (Or.inr ⟨1, rfl, by decide⟩) rfl)

/-- C1 -- `route(m)` picks the handling from the message's rule (falling back
to the default rule when the table has no entry for its discriminant): the
rule's `after` handling when the rule's stage is complete, otherwise the
rule's `during` handling when the stage is in progress, otherwise the rule's
`before` handling. -/
theorem handlingForMessage_spec (rules : RuleTable) (st : StageState) (t : String) :
    (rules t = none →
      handlingForMessage rules st t = handlingForMessage (fun _ => some MissingRule) st t) ∧
    (∀ r : SyncRule, rules t = some r →
      ((isStageComplete st r.stage = true → handlingForMessage rules st t = r.after) ∧
       (isStageComplete st r.stage = false → isStageInProgress st r.stage = true →
          handlingForMessage rules st t = r.during) ∧
       (isStageComplete st r.stage = false → isStageInProgress st r.stage = false →
          handlingForMessage rules st t = r.before))) := by
  constructor
  · intro hnone
    simp [handlingForMessage, hnone]
  · intro r hr
    refine ⟨?_, ?_, ?_⟩
    · intro hc
      simp [handlingForMessage, hr, hc]
    · intro hc hp
      simp [handlingForMessage, hr, hc, hp]
    · intro hc hp
      simp [handlingForMessage, hr, hc, hp]

/-- Witness for C1: a concrete table, state and discriminant exercising a
branch of `handlingForMessage_spec`. -/
theorem handlingForMessage_spec_witness :
    handlingForMessage
      (fun t => if t = "actor-update" then some ⟨.createActors, .queue, .allow, .allow⟩ else none)
      ⟨[Stage.always], [Stage.loadAssets]⟩ "actor-update" = Handling.queue :=
  ((handlingForMessage_spec
      (fun t => if t = "actor-update" then some ⟨.createActors, .queue, .allow, .allow⟩ else none)
      ⟨[Stage.always], [Stage.loadAssets]⟩ "actor-update").2
    ⟨.createActors, .queue, .allow, .allow⟩ (by decide)).2.2 (by decide) (by decide)

/-- C2 -- the sync driver: when the session is peer-authoritative the five
stages are begun, executed and completed strictly in the order load-assets,
create-actors, set-behaviors, create-animations, sync-animations, with a
queue drain after each; when it is not, the staged replay is skipped and only
`always` is begun and completed; in both cases the sync-complete payload is
emitted exactly once, after `always` completes. -/
theorem run_driver_spec :
    runEvents true =
      [.startListening, .stageBegin .always,
       .stageBegin .loadAssets, .execute .loadAssets, .stageComplete .loadAssets, .drain,
       .stageBegin .createActors, .execute .createActors, .stageComplete .createActors, .drain,
       .stageBegin .setBehaviors, .execute .setBehaviors, .stageComplete .setBehaviors, .drain,
       .stageBegin .createAnimations, .execute .createAnimations,
       .stageComplete .createAnimations, .drain,
       .stageBegin .syncAnimations, .execute .syncAnimations,
       .stageComplete .syncAnimations, .drain,
       .stageComplete .always, .sendSyncComplete, .drain, .resolve] ∧
    runEvents false =
      [.startListening, .stageBegin .always,
       .stageComplete .always, .sendSyncComplete, .drain, .resolve] ∧
    (∀ b : Bool, (runEvents b).count .sendSyncComplete = 1) ∧
    (∀ b : Bool,
      (runEvents b).indexOf (.stageComplete .always) < (runEvents b).indexOf .sendSyncComplete) := by
  refine ⟨by decide, by decide, ?_, ?_⟩ <;> exact fun b => by cases b <;> decide

/-- C7 -- stage-state invariants: `completeStage` and `beginStage` never
remove a completed stage, so `complete` is monotone over the peer's lifetime;
along every state reached by `run` the in-progress and complete sets are
disjoint; and in both runs every stage's transition history is either empty
or exactly begin-then-complete (absent, then in progress, then complete). -/
theorem stage_state_invariants :
    (∀ (e : RunEvent) (st : StageState) (s : Stage),
      isStageComplete st s = true → isStageComplete (applyRunEvent e st) s = true) ∧
    (∀ b : Bool, ∀ st ∈ statesAlong (runEvents b) .init, ∀ s : Stage,
      ¬(isStageInProgress st s = true ∧ isStageComplete st s = true)) ∧
    (∀ b : Bool, ∀ s : Stage,
      stageTransitions s (runEvents b) = [] ∨
      stageTransitions s (runEvents b) = [true, false]) := by
  refine ⟨?_, ?_, ?_⟩
  · intro e st s h
    cases e <;> simp only [applyRunEvent, beginStage, completeStage, isStageComplete,
      List.contains, List.elem_eq_mem, decide_eq_true_eq, List.mem_append] at h ⊢ <;> tauto
  · intro b
    cases b <;> decide
  · intro b
    cases b <;> decide

/-- Witness for C7: completing `load-assets` keeps the already-completed
`always` stage complete. -/
theorem stage_state_invariants_witness :
    isStageComplete
      (applyRunEvent (.stageComplete .loadAssets) ⟨[Stage.loadAssets], [Stage.always]⟩)
      Stage.always = true :=
  stage_state_invariants.1 (.stageComplete .loadAssets)
    ⟨[Stage.loadAssets], [Stage.always]⟩ Stage.always (by decide)

/-- C3 -- during the create-actors stage, for every cached actor `c` with
parent `p` (its unique parent in the hierarchy), in every reachable state of
the stage under any interleaving the create message of `c` appears in the
transport trace only after the reply to the create message of `p`; and
siblings are dispatched in parallel: in the hierarchy `siblingCache`, a state
is reachable in which both children's create messages are in flight at once,
neither reply observed. -/
theorem createActors_parent_reply_before_child_send :
    (∀ (cache : ActorCache) (s : CreateState), CreateReachable cache s →
      ∀ c p, c ∉ cache.rootActors → (∀ q, c ∈ cache.childrenOf q → q = p) →
        CreateEvent.send c ∈ s.trace →
        eventBefore s.trace (.reply p) (.send c)) ∧
    (∃ s : CreateState, CreateReachable siblingCache s ∧
      CreateEvent.send 2 ∈ s.trace ∧ CreateEvent.send 3 ∈ s.trace ∧
      CreateEvent.reply 2 ∉ s.trace ∧ CreateEvent.reply 3 ∉ s.trace) := by
  constructor
  · intro cache s hs c p hroot huniq hmem
    exact (createReachable_invariant cache s hs).2.2.2 c p hroot huniq hmem
  · exact ⟨sibState4, sibState4_reachable, by decide, by decide, by decide, by decide⟩

/-- Witness for C3: in the reachable state of `siblingCache` where the trace
is send 1, reply 1, send 2, the child's create message (actor 2) is preceded
by its parent's reply (actor 1). -/
theorem createActors_parent_reply_before_child_send_witness :
    eventBefore [CreateEvent.send 1, .reply 1, .send 2]
      (.reply 1) (.send 2) :=
  createActors_parent_reply_before_child_send.1 siblingCache sibState3
    sibState3_reachable 2 1 (by decide)
    (fun q hq => by
      by_contra hne
      simp [siblingCache, hne] at hq)
    (by decide)

/-- C4 -- the animation reconciler: every forwarded animation state carries
the original time plus `authoritative latency / 2000` plus
`joining latency / 2000`; with authoritative latency 100 ms, joining latency
60 ms and time 10.000 s the joining peer receives time 10.080 s. -/
theorem sync_animations_latency_compensation :
    (∀ (authLatencyMs joinLatencyMs : ℚ) (states : List AnimationState),
      forwardedAnimationStates authLatencyMs joinLatencyMs states =
        states.map (fun a =>
          { a with time := a.time + authLatencyMs / 2000 + joinLatencyMs / 2000 })) ∧
    forwardedAnimationStates 100 60 [⟨"anim", 10⟩] = [⟨"anim", 10.08⟩] := by
  constructor
  · intro authLatencyMs joinLatencyMs states
    simp [forwardedAnimationStates, reconcileAnimationState]
  · show [reconcileAnimationState 100 60 ⟨"anim", 10⟩] = [⟨"anim", 10.08⟩]
    simp only [reconcileAnimationState, List.cons.injEq, and_true,
      AnimationState.mk.injEq, true_and]
    norm_num

/-- C9 -- replies observed by `sendAndExpectResponse` while the client is
flagged authoritative are echoed on the session's application-facing
connection and still resolve the awaiting continuation; without the flag
nothing is echoed. -/
theorem sendAndExpectResponse_reply_echo {Payload Msg : Type}
    (clientAuthoritative : Bool) (replyPayload : Payload) (replyMessage : Msg)
    (h : clientAuthoritative = true) :
    (sendAndExpectResponseOnReply clientAuthoritative replyPayload replyMessage).echoedOnSessionConn
        = some replyMessage ∧
    (sendAndExpectResponseOnReply clientAuthoritative replyPayload replyMessage).resolvedWith
        = replyPayload ∧
    (sendAndExpectResponseOnReply false replyPayload replyMessage).echoedOnSessionConn = none := by
  subst h
  exact ⟨rfl, rfl, rfl⟩

/-- Witness for C9: a concrete authoritative reply is echoed and resolved. -/
theorem sendAndExpectResponse_reply_echo_witness :
    (sendAndExpectResponseOnReply true "payload" 7).echoedOnSessionConn = some 7 ∧
    (sendAndExpectResponseOnReply true "payload" 7).resolvedWith = "payload" ∧
    (sendAndExpectResponseOnReply false "payload" 7).echoedOnSessionConn = none :=
  sendAndExpectResponse_reply_echo true "payload" 7 rfl

/-- C5 -- evaluation at the failing input: with one cached actor carrying one
created animation (message id 7) and one interpolation (originally enabled),
the stage forwards the interpolation with `enabled = false` and sends message
7 expecting a reply, but the promise `stage:create-animations` awaits is
pending on nothing - the reply to message 7 is not awaited before the stage
completes, because `Promise.all` is applied (twice) to a one-element array
whose single element is the array of reply promises, and an array is not a
thenable. The last conjunct: no reply is awaited for any cache contents. -/
theorem create_animations_replies_not_awaited :
    createAnimationsSentWithReply [⟨"actor1", [⟨7⟩], [⟨true, 0⟩]⟩] = [7] ∧
    createAnimationsInterpolationsSent [⟨"actor1", [⟨7⟩], [⟨true, 0⟩]⟩]
      = [⟨false, 0⟩] ∧
    (stageCreateAnimationsPromise [⟨"actor1", [⟨7⟩], [⟨true, 0⟩]⟩]).awaited = [] ∧
    (∀ actors : List SyncActor, (stageCreateAnimationsPromise actors).awaited = []) :=
  ⟨rfl, rfl, rfl, fun _ => rfl⟩

/-- C6 -- the queue-drain loop terminates for every queue and stage state: a
budget of `queue length + 1` iterations always reaches the loop's exit; the
loop removes exactly the messages classified `allow` (in order) and leaves
exactly the rest; and a drained batch of `allow`-classified messages never
re-enters the queue when re-sent, since its classification is unchanged. -/
theorem sendQueuedMessages_terminates :
    (∀ (rules : RuleTable) (st : StageState) (q : List QueuedMessage),
      sendQueuedMessagesLoop rules st (q.length + 1) q =
        some (q.filter (allowNow rules st),
              q.filter (fun m => !(allowNow rules st m)))) ∧
    (∀ (rules : RuleTable) (st : StageState) (q r : List QueuedMessage),
      resendEffect rules st (q.filter (allowNow rules st)) r = r) := by
  constructor
  · intro rules st q
    match q with
    | [] => exact sendQueuedMessagesLoop_exit rules st 0 [] rfl
    | a :: l => exact sendQueuedMessagesLoop_run rules st l.length (a :: l)
  · intro rules st q r
    exact resendEffect_of_allow rules st _ r (fun m hm => (List.mem_filter.mp hm).2)

/-- Counterexample to C8 as stated: a message whose classification is
`ignore` and which carries a reply continuation is dropped, but `sendMessage`
does not resolve the continuation (the `ignore` case block is empty). -/
theorem sendMessage_ignore_counterexample :
    handlingForMessage syncAnimationsRuleTable .init "sync-animations" = .ignore ∧
    (sendMessage syncAnimationsRuleTable .init "sync-animations").effect = .dropped ∧
    ¬((sendMessage syncAnimationsRuleTable .init "sync-animations").promiseResolvedEmpty
        = true) := by
  refine ⟨rfl, rfl, ?_⟩
  intro h
  exact Bool.noConfusion h

/-- C8 amended -- for every message whose classification is `ignore`,
`sendMessage` drops the message (it is neither forwarded to the transport nor
queued) and leaves any reply continuation untouched: it is not resolved. -/
theorem sendMessage_ignore_drops_unresolved (rules : RuleTable) (st : StageState)
    (t : String) (h : handlingForMessage rules st t = .ignore) :
    sendMessage rules st t = ⟨.dropped, false⟩ := by
  simp [sendMessage, h]

/-- Witness for the amended C8: the sync-animations reply before its stage is
dropped with its continuation unresolved. -/
theorem sendMessage_ignore_drops_unresolved_witness :
    sendMessage syncAnimationsRuleTable .init "sync-animations"
      = ⟨SendEffect.dropped, false⟩ :=
  sendMessage_ignore_drops_unresolved syncAnimationsRuleTable .init "sync-animations" rfl

/-- C10 -- `createActorInterpolations` leaves the session cache unchanged:
each `activeInterpolations` entry is copied before its `enabled` flag is
overridden, so the payloads sent carry `enabled = false` with all other
fields preserved while the cached objects keep their original values. -/
theorem createActorInterpolations_cache_unchanged {α : Type}
    (cache : List (InterpolateActor α)) :
    (createActorInterpolations cache).2 = cache ∧
    (createActorInterpolations cache).1 =
      cache.map (fun ip => { ip with enabled := false }) := by
  constructor
  · simp [createActorInterpolations, interpolationStep]
  · rfl

end ClientSync
